import Mathlib

/-!
Verification of the Instance Provisioning & Launch Orchestrator of
CottageLauncher (`src/app/api/routes.py`) against its specification.

The Python source is shallowly embedded: strings are `List Char` / `String`,
machine integers are `Nat`/`Int`, the filesystem and network are explicit
state records, and fallible steps return `Option`/`Except`.  Only the ASCII
fragment of Python's text handling is modelled; every input appearing in the
program (version strings, slugs, classpath entries, version-store names) is
ASCII.
-/

/- ## ASCII character helpers (Python `re` character classes, `str.lower`, `str.strip`) -/

/-- `0-9` (the regex class `[0-9]` / `str.isdigit` for ASCII). -/
def isAsciiDigit (c : Char) : Bool := 48 ≤ c.toNat && c.toNat ≤ 57

/-- `A-Z`. -/
def isAsciiUpper (c : Char) : Bool := 65 ≤ c.toNat && c.toNat ≤ 90

/-- `a-z`. -/
def isAsciiLower (c : Char) : Bool := 97 ≤ c.toNat && c.toNat ≤ 122

/-- ASCII whitespace, the characters Python's `str.strip()` and the regex
class `\s` treat as whitespace in the ASCII range:
space, tab, newline, carriage return, vertical tab, form feed. -/
def isPySpace (c : Char) : Bool :=
  c.toNat = 32 || c.toNat = 9 || c.toNat = 10 || c.toNat = 13 ||
  c.toNat = 11 || c.toNat = 12

/-- Python `str.lower()` on an ASCII character (`routes.py` lowercases only
after stripping every non-ASCII character, so the ASCII case is the only
reachable one). -/
def pyLowerChar (c : Char) : Char :=
  if isAsciiUpper c then Char.ofNat (c.toNat + 32) else c

/-- Python `str.strip()` (both-ends whitespace strip) on a character list. -/
def pyStrip (l : List Char) : List Char :=
  ((l.dropWhile isPySpace).reverse.dropWhile isPySpace).reverse


/-- `s.startswith(p)` via the underlying character lists (kept list-based so
concrete instances evaluate inside the kernel). -/
def strStartsWith (s p : String) : Bool := p.data.isPrefixOf s.data

/-- `s.endswith(p)` via the underlying character lists. -/
def strEndsWith (s p : String) : Bool := p.data.reverse.isPrefixOf s.data.reverse

/- ## `_slugify` (routes.py lines 221-224) -/

/-- The complement of the character class of the first substitution in
`_slugify`: `re.sub(r"[^a-zA-Z0-9\-_. ]+", "", name)` deletes every character
not satisfying this predicate. -/
def slugKeepChar (c : Char) : Bool :=
  isAsciiUpper c || isAsciiLower c || isAsciiDigit c ||
  c = '-' || c = '_' || c = '.' || c = ' '

/-- The class `[\s_]` of the second substitution in `_slugify`. -/
def slugWsChar (c : Char) : Bool := isPySpace c || c = '_'

/-- `re.sub(r"[\s_]+", "-", s)`: each maximal run of whitespace/underscore
characters is replaced by a single hyphen.  The boolean argument records
whether the previous character belonged to such a run. -/
def collapseRunsAux : Bool → List Char → List Char
  | _, [] => []
  | prevWs, c :: cs =>
    if slugWsChar c then
      if prevWs then collapseRunsAux true cs
      else '-' :: collapseRunsAux true cs
    else c :: collapseRunsAux false cs

/-- `_slugify` before its empty-result fallback:
`s = re.sub(r"[^a-zA-Z0-9\-_. ]+", "", name).strip().lower()` followed by
`s = re.sub(r"[\s_]+", "-", s)`. -/
def slugifyCore (name : List Char) : List Char :=
  collapseRunsAux false ((pyStrip (name.filter slugKeepChar)).map pyLowerChar)

/-- `_slugify(name)`.  The random suffix produced by `secrets.token_hex(4)`
in the empty-result fallback (`s or f"instance-{secrets.token_hex(4)}"`) is
passed in explicitly as `token`; `token_hex` always returns eight lowercase
hexadecimal characters. -/
def slugify (name token : List Char) : List Char :=
  let s := slugifyCore name
  if s = [] then "instance-".data ++ token else s

/-- Character set of `secrets.token_hex` output: lowercase hex digits. -/
def isLowerHex (c : Char) : Bool :=
  isAsciiDigit c || (97 ≤ c.toNat && c.toNat ≤ 102)

/-- The character set the spec claims for slug output: lowercase
alphanumerics and hyphens. -/
def specSlugChar (c : Char) : Bool :=
  isAsciiLower c || isAsciiDigit c || c = '-'

/-- The character set the slug output actually has: the spec set plus the
dot, which the first substitution of `_slugify` preserves. -/
def slugOutChar (c : Char) : Bool := specSlugChar c || c = '.'

/- ## `_parse_mc_version` / `_required_java_feature_version` (routes.py lines 76-100) -/

/-- `re.split(r"[.\-]", ver)`: split on dots and hyphens, keeping empty
pieces (the first component is the accumulator, reversed at each cut). -/
def splitDotDash : List Char → List Char → List (List Char)
  | acc, [] => [acc.reverse]
  | acc, c :: cs =>
    if c = '.' || c = '-' then acc.reverse :: splitDotDash [] cs
    else splitDotDash (c :: acc) cs

/-- Digit tail of Python `int(str)` parsing: after the first digit, single
underscores are permitted between digits (`int("1_0") == 10`). -/
def pyDigitsAux : Nat → List Char → Option Nat
  | acc, [] => some acc
  | acc, c :: cs =>
    if c = '_' then
      match cs with
      | [] => none
      | d :: cs' =>
        if isAsciiDigit d then pyDigitsAux (acc * 10 + (d.toNat - 48)) cs' else none
    else if isAsciiDigit c then pyDigitsAux (acc * 10 + (c.toNat - 48)) cs
    else none

/-- Nonempty digit run with underscore grouping. -/
def pyDigits : List Char → Option Nat
  | [] => none
  | c :: cs => if isAsciiDigit c then pyDigitsAux (c.toNat - 48) cs else none

/-- Python `int(str)` on the ASCII fragment: strip whitespace, optional
sign, digits with underscore grouping; `None` models `ValueError`. -/
def pyInt (l : List Char) : Option Int :=
  match pyStrip l with
  | '+' :: rest => (pyDigits rest).map Int.ofNat
  | '-' :: rest => (pyDigits rest).map (fun n => -(n : Int))
  | rest => (pyDigits rest).map Int.ofNat

/-- The accumulation loop of `_parse_mc_version`: convert successive pieces
with `int(p)`, stopping at the first piece that raises `ValueError`. -/
def takeIntPieces : List (List Char) → List Int
  | [] => []
  | p :: ps =>
    match pyInt p with
    | some n => n :: takeIntPieces ps
    | none => []

/-- `_parse_mc_version(ver)`: split on `[.\-]`, take the leading run of
integer pieces, pad with zeros to length three, return the first three. -/
def parseMcVersion (ver : String) : Int × Int × Int :=
  let nums := takeIntPieces (splitDotDash [] ver.data)
  (nums.getD 0 0, nums.getD 1 0, nums.getD 2 0)

/-- Lexicographic `<` on integer triples, as Python compares tuples. -/
def tripleLt (a b : Int × Int × Int) : Bool :=
  a.1 < b.1 || (a.1 = b.1 && (a.2.1 < b.2.1 || (a.2.1 = b.2.1 && a.2.2 < b.2.2)))

/-- Python tuple `>=` on integer triples; for a total order it is the
negation of `<`. -/
def tripleGe (a b : Int × Int × Int) : Bool := !(tripleLt a b)

/-- `_required_java_feature_version(mc_ver)` (routes.py lines 89-100). -/
def requiredJavaFeatureVersion (mcVer : String) : Nat :=
  let t := parseMcVersion mcVer
  if tripleGe t (1, 20, 5) then 21
  else if tripleGe t (1, 18, 0) then 17
  else if tripleGe t (1, 17, 0) then 16
  else 8

/-- The threshold table exactly as the spec words it (§6): `V ≥ 1.20.5` →
21; `1.18.0 ≤ V < 1.20.5` → 17; `1.17.0 ≤ V < 1.18.0` → 16; else 8.
This is the spec-side definition compared against the code-side
`requiredJavaFeatureVersion`. -/
def specJavaThresholds (t : Int × Int × Int) : Nat :=
  if tripleGe t (1, 20, 5) then 21
  else if tripleGe t (1, 18, 0) && tripleLt t (1, 20, 5) then 17
  else if tripleGe t (1, 17, 0) && tripleLt t (1, 18, 0) then 16
  else 8

/- ## File entries and the install pipeline (`_install_modpack_job`, `_download_entry`, routes.py lines 332-446) -/

/-- One entry of the `files` list of `modrinth.index.json`:
`entry.get("path")` and `entry.get("downloads") or []`. -/
structure FileEntry where
  path : Option String
  downloads : List String
deriving DecidableEq

/-- Python truthiness of `entry.get("path")`: a missing key or an empty
string is falsy. -/
def pyTruthyStr : Option String → Bool
  | none => false
  | some s => s ≠ ""

/-- Split a string on `/`. -/
def splitSlashAux : List Char → List Char → List (List Char)
  | acc, [] => [acc.reverse]
  | acc, c :: cs =>
    if c = '/' then acc.reverse :: splitSlashAux [] cs else splitSlashAux (c :: acc) cs

/-- POSIX path components as `pathlib` produces them: split on `/`,
collapsing repeated slashes and dropping single-dot components, keeping
`..`. -/
def splitPosix (s : String) : List String :=
  ((splitSlashAux [] s.data).map String.mk).filter (fun c => c ≠ "" && c ≠ ".")

/-- `pathlib`'s `/` operator: an absolute right operand replaces the base
path, otherwise the components are appended.  Paths are modelled as the
component list below the filesystem root. -/
def pathJoin (base : List String) (rel : String) : List String :=
  if strStartsWith rel "/" then splitPosix rel else base ++ splitPosix rel

/-- The location the operating system actually writes when the joined path
is opened: each `..` component pops the previous component (no symbolic
links; `..` at the root stays at the root). -/
def resolveDots (l : List String) : List String :=
  l.foldl (fun acc c => if c = ".." then acc.dropLast else acc ++ [c]) []

/-- `underRoot root p` holds when `p` is `root` itself or a path below it
(`root` is a leading component run of `p`). -/
def underRoot : List String → List String → Bool
  | [], _ => true
  | _ :: _, [] => false
  | b :: bs, t :: ts => b = t && underRoot bs ts

/-- The guard of `_download_entry`: `if not rel_path or not urls: return
False` — the entry is skipped, not fatal. -/
def entrySkipped (e : FileEntry) : Bool :=
  !(pyTruthyStr e.path) || e.downloads.isEmpty

/-- Whether `_download_entry` succeeds, given the per-URL outcome oracle
`fetchOk` (a deterministic failure is a non-2xx response on the first URL,
raised by `r.raise_for_status()` before the destination file is opened).
Only the first URL is ever tried. -/
def entryDownloadOk (fetchOk : String → Bool) (e : FileEntry) : Bool :=
  !(entrySkipped e) && fetchOk (e.downloads.headD "")

/-- The file `_download_entry` writes for a non-skipped entry:
`target_path = inst_dir / rel_path`, resolved by the OS at write time.
`none` when the entry is skipped. -/
def entryTarget (instDir : List String) (e : FileEntry) : Option (List String) :=
  if entrySkipped e then none
  else some (resolveDots (pathJoin instDir (e.path.getD "")))

/-- Job status values (`JOBS[job_id]["status"]`). -/
inductive JobStatus
  | queued
  | running
  | completed
  | failed
deriving DecidableEq

/-- Environment of one `_install_modpack_job` run.  The oracles record the
outcome of the steps that precede the file loop: the version-metadata GET,
the `.mrpack` archive download/extraction, and the presence of
`modrinth.index.json` in the extracted tree. -/
structure InstallEnv where
  instDir : List String
  metadataOk : Bool
  archiveOk : Bool
  indexFound : Bool
  entries : List FileEntry
  fetchOk : String → Bool
  hasOverrides : Bool

/-- Observable outcome of an install job: final status and progress, the
resolved paths of the files actually written, and the full sequence of
progress values written to the job record, in order. -/
structure JobOutcome where
  status : JobStatus
  progress : Nat
  written : List (List String)
  trace : List Nat

/-- The progress percentage after `done` of `total` files:
`pct = 15 + int(80 * (done / total))`, with the float truncation modelled
as exact natural floor division. -/
def installPct (total done : Nat) : Nat := 15 + 80 * done / total

/-- `_install_modpack_job`.  `width` is the worker-pool width
(`max_workers`, 10 in the source); `order` is the order in which the pool
completes the futures, an arbitrary permutation of the entry list.  The
`done` counter is incremented under a lock in the `as_completed` loop, so
the `done`-th update always writes `installPct total done` whatever the
interleaving, and a per-entry failure only makes `_download_entry` return
`False`.  Progress writes: 0 at queue time, 0 again when the task starts,
2 (metadata), 8 (archive download), 15 (extraction), 15 (file loop start),
one value per completed future, 96 if an overrides tree exists, 100 at
completion; a fatal step marks the job failed without touching progress. -/
def installModpackJob (env : InstallEnv) (_width : Nat) (order : List FileEntry) :
    JobOutcome :=
  let t0 : List Nat := [0, 0, 2]
  if !env.metadataOk then ⟨.failed, 2, [], t0⟩ else
  let t1 := t0 ++ [8]
  if !env.archiveOk then ⟨.failed, 8, [], t1⟩ else
  let t2 := t1 ++ [15]
  if !env.indexFound then ⟨.failed, 15, [], t2⟩ else
  let total := max 1 env.entries.length
  let written := order.filterMap
    (fun e => if entryDownloadOk env.fetchOk e then entryTarget env.instDir e else none)
  let dl := (List.range order.length).map (fun i => installPct total (i + 1))
  let t3 := (t2 ++ [15]) ++ dl
  let t4 := t3 ++ (if env.hasOverrides then [96] else [])
  { status := .completed, progress := 100, written := written, trace := t4 ++ [100] }

/- ## `_dedupe_asm_in_cmd` (routes.py lines 491-555) -/

/-- Result of a Python call that may raise. -/
inductive PyResult (α : Type)
  | ok (a : α)
  | exc
deriving DecidableEq

/-- The argument files reachable through `@file` tokens: an association of
file path to list of lines. -/
structure ArgFS where
  files : List (String × List String)
deriving DecidableEq

/-- `Path(arg_path).exists()` / `read_text().splitlines()`. -/
def ArgFS.readLines (fs : ArgFS) (p : String) : Option (List String) :=
  (fs.files.find? (fun kv => kv.1 = p)).map Prod.snd

/-- `p.write_text("\n".join(lines))`. -/
def ArgFS.writeLines (fs : ArgFS) (p : String) (ls : List String) : ArgFS :=
  ⟨fs.files.map (fun kv => if kv.1 = p then (kv.1, ls) else kv)⟩

/-- `_dedupe_cp_string(cp_str)`.  Its first effectual statement,
`re.compile(r".*/org/ow2/asm/(?P<artifact>asm(?:-[a-z]+)*)/(?P<ver>\\d+\\.\\d+)/(?P=artifact)-(?P<ver)\\.jar$")`,
raises `re.error` ("missing >, unterminated name"): the second group
occurrence `(?P<ver)` lacks its closing `>` (and, the pattern being a raw
string, `\\d` denotes an escaped backslash followed by a literal `d` rather
than a digit class).  CPython therefore raises on every call, before any
classpath entry is inspected, so the function raises for every input. -/
def dedupeCpString (_cp : String) : PyResult String := .exc

/-- Index of the first line whose `line.strip()` is `-cp` or `-classpath`
and which has a following line (the classpath string). -/
def argfileCpIdx (lines : List String) : Option Nat :=
  (List.range lines.length).find?
    (fun j =>
      (let t := String.mk (pyStrip (lines.getD j "").data)
       t = "-cp" || t = "-classpath") && j + 1 < lines.length)

/-- Handling of one command token in the `@argument`-file pass: for an
`@file` token whose file exists, the classpath line after the first
`-cp`/`-classpath` line is rewritten through `_dedupe_cp_string`; the inner
`try`/`except: pass` swallows any exception, leaving the file untouched. -/
def processArgToken (fs : ArgFS) (tok : String) : ArgFS :=
  if strStartsWith tok "@" then
    match fs.readLines (tok.drop 1) with
    | none => fs
    | some lines =>
      match argfileCpIdx lines with
      | none => fs
      | some j =>
        match dedupeCpString (lines.getD (j + 1) "") with
        | .exc => fs
        | .ok s => fs.writeLines (tok.drop 1) (lines.set (j + 1) s)
  else fs

/-- Index of the first `-cp` / `-classpath` token of the command. -/
def findCpFlagIdx (cmd : List String) : Option Nat :=
  (List.range cmd.length).find?
    (fun i => cmd.getD i "" = "-cp" || cmd.getD i "" = "-classpath")

/-- `_dedupe_asm_in_cmd(cmd)`: first the `@argfile` pass over every token,
then the inline `-cp` rewrite; the enclosing `try`/`except` returns the
command unmodified if anything raises.  The pair is (argument-file state,
returned command). -/
def dedupeAsmInCmd (fs : ArgFS) (cmd : List String) : ArgFS × List String :=
  let fs1 := cmd.foldl processArgToken fs
  match findCpFlagIdx cmd with
  | some i =>
    if i + 1 < cmd.length then
      match dedupeCpString (cmd.getD (i + 1) "") with
      | .ok s => (fs1, cmd.set (i + 1) s)
      | .exc => (fs1, cmd)
    else (fs1, cmd)
  | none => (fs1, cmd)

/-- The classpath with two versions of the same `org.ow2.asm` artifact that
the spec's 9.1-versus-9.5 example describes (`os.pathsep` is `:` on the
POSIX platforms the launcher targets). -/
def asmCp91and95 : String :=
  "/libs/org/ow2/asm/asm/9.1/asm-9.1.jar:/libs/org/ow2/asm/asm/9.5/asm-9.5.jar"

/-- A launch command carrying that classpath inline. -/
def asmCmd91and95 : List String :=
  ["/jre/bin/java", "-cp", asmCp91and95, "net.fabricmc.loader.impl.launch.knot.KnotClient"]

/-- `cp_str.split(os.pathsep)` with the POSIX path separator `:`. -/
def splitColonAux : List Char → List Char → List (List Char)
  | acc, [] => [acc.reverse]
  | acc, c :: cs =>
    if c = ':' then acc.reverse :: splitColonAux [] cs else splitColonAux (c :: acc) cs

/-- Classpath entries of a classpath string. -/
def splitPathSep (s : String) : List String := (splitColonAux [] s.data).map String.mk

/- ## `_ensure_adoptium_jre` (routes.py lines 125-212) -/

/-- Observable state of one runtime cache entry
(`inst_dir / f"jre-temurin-{java_feature}"`) together with network-traffic
counters.  `javaBinPresent` is the existence of the platform-specific
executable (`bin/java` or `bin/java.exe`) inside the entry;
`staleFiles` stands for any other content of the entry, which the
function never inspects; `indexQueries` counts GETs of the Adoptium asset
index and `downloads` counts archive downloads. -/
structure JreCache where
  javaBinPresent : Bool
  staleFiles : Bool
  indexQueries : Nat
  downloads : Nat
deriving DecidableEq

/-- Outcome oracle for the network/extraction steps of a cache miss:
whether the asset index returns any build, whether a package link is
resolvable (directly by archive format or through the first-asset
fallback), and whether the downloaded archive extracts to a subtree
containing `bin/java`. -/
structure AdoptiumNet where
  assetsNonempty : Bool
  linkFound : Bool
  extractedRootFound : Bool
deriving DecidableEq

/-- `_ensure_adoptium_jre(java_feature, inst_dir)` for a fixed feature
version, returning the evolved cache state and either the executable path
(modelled as `Unit`) or the raised error message.  Mirrors the source
order: executable-existence check first (sole cache check, immediate
return on hit); otherwise index query, asset/link selection, archive
download into a temporary directory, extraction, search for the subtree
holding `bin/java`, copy into the cache directory with
`dirs_exist_ok=True` (overwriting files, deleting nothing), and a final
existence check that then succeeds. -/
def ensureAdoptiumJre (net : AdoptiumNet) (s : JreCache) :
    JreCache × Except String Unit :=
  if s.javaBinPresent then (s, .ok ())
  else
    let s1 := { s with indexQueries := s.indexQueries + 1 }
    if !net.assetsNonempty then
      (s1, .error "No Adoptium assets for the requested feature version")
    else if !net.linkFound then
      (s1, .error "Failed to locate Adoptium download link")
    else
      let s2 := { s1 with downloads := s1.downloads + 1 }
      if !net.extractedRootFound then
        (s2, .error "Failed to locate extracted JRE bin/java")
      else
        ({ s2 with javaBinPresent := true }, .ok ())

/- ## Version resolution inside `_launch_instance_job` (routes.py lines 602-786) -/

/-- One entry of the local version store `MC_DIR / "versions"`, as the
discovery fallback observes it: directory name, whether it is a directory,
its modification time, and whether `versions/<name>/<name>.json` exists. -/
structure VDirEntry where
  name : String
  isDir : Bool
  mtime : Nat
  hasJson : Bool
deriving DecidableEq

/-- The local version store: whether `MC_DIR / "versions"` exists, and its
entries in `iterdir()` order. -/
structure VersionsStore where
  present : Bool
  dirs : List VDirEntry
deriving DecidableEq

/-- `_version_exists(vid)`: falsy ids are not installed; otherwise the
check is the existence of `versions/<vid>/<vid>.json`. -/
def versionExists (st : VersionsStore) (vid : String) : Bool :=
  vid ≠ "" && st.dirs.any (fun e => e.name = vid && e.hasJson)

/-- The naive version-id computation (routes.py lines 657-669): the
ecosystem templates `fabric-loader-{L}-{B}`, `quilt-loader-{L}-{B}`,
`forge-{B}-{L}`, `neoforge-{L}`, else `{B}`; `none` models the
`RuntimeError` raised when no pin is usable. -/
def computeVersionId (mc fabric quilt forge neo : Option String) : Option String :=
  if pyTruthyStr fabric && pyTruthyStr mc then
    some ("fabric-loader-" ++ fabric.getD "" ++ "-" ++ mc.getD "")
  else if pyTruthyStr quilt && pyTruthyStr mc then
    some ("quilt-loader-" ++ quilt.getD "" ++ "-" ++ mc.getD "")
  else if pyTruthyStr forge && pyTruthyStr mc then
    some ("forge-" ++ mc.getD "" ++ "-" ++ forge.getD "")
  else if pyTruthyStr neo then
    some ("neoforge-" ++ neo.getD "")
  else if pyTruthyStr mc then mc
  else none

/-- The loader-name test of the discovery fallback (routes.py line 746):
the directory name must start with one of the four recognized loader
names.  No comparison with the manifest's pinned loader is made. -/
def loaderNameMatch (n : String) : Bool :=
  strStartsWith n "fabric-loader" || strStartsWith n "quilt-loader" ||
  strStartsWith n "forge-" || strStartsWith n "neoforge-"

/-- The candidate filter of the discovery fallback: directories whose name
ends with `-{mc_ver}` and starts with a recognized loader name. -/
def discoveryCandidates (st : VersionsStore) (mcVer : String) : List VDirEntry :=
  st.dirs.filter
    (fun e => e.isDir && strEndsWith e.name ("-" ++ mcVer) && loaderNameMatch e.name)

/-- `candidates.sort(key=mtime, reverse=True)` followed by `candidates[0]`:
Python's sort is stable and `reverse=True` keeps the original order among
equal keys, so the pick is the first entry carrying the maximal
modification time. -/
def pickMostRecent : List VDirEntry → Option VDirEntry
  | [] => none
  | c :: cs => some (cs.foldl (fun best d => if best.mtime < d.mtime then d else best) c)

/-- Fallback 4 of the resolver (routes.py lines 737-752): when the current
id is not installed and the version store exists, scan it and replace the
id by the discovered name, if any. -/
def discoverFallback (st : VersionsStore) (mcVer vid : String) : String :=
  if versionExists st vid then vid
  else if !st.present then vid
  else
    match pickMostRecent (discoveryCandidates st mcVer) with
    | some e => e.name
    | none => vid

/-- The resolution-error message of routes.py line 755. -/
def resolutionErrorMsg (vid : String) : String :=
  "Version \x27" ++ vid ++ "\x27 was not installed or found after installation attempts"

/-- End of the resolution chain (routes.py lines 737-755): the discovery
fallback followed by the final installed-check; the launch job fails with
the resolution error when the surviving id is still not installed. -/
def resolveFinal (st : VersionsStore) (mcVer vid : String) : Except String String :=
  let v := discoverFallback st mcVer vid
  if versionExists st v then .ok v else .error (resolutionErrorMsg v)

/-- The version store of the loader-mismatch scenario: the computed fabric
id is absent and the only installed version is a quilt one. -/
def quiltOnlyStore : VersionsStore :=
  { present := true
    dirs := [{ name := "quilt-loader-0.20.2-1.20.1", isDir := true, mtime := 5, hasJson := true }] }

/-- The version store of the witness scenario for the discovery fallback:
two loader directories are present for the base version, neither carrying
its version json, the quilt one most recently modified. -/
def storeW : VersionsStore :=
  { present := true
    dirs := [{ name := "fabric-loader-0.14.0-1.20.1", isDir := true, mtime := 3, hasJson := false },
             { name := "quilt-loader-0.20.2-1.20.1", isDir := true, mtime := 7, hasJson := false }] }

/-- Witness install environment: three file entries of which one has an
empty URL list and one lacks a path. -/
def envW : InstallEnv :=
  { instDir := ["r"]
    metadataOk := true
    archiveOk := true
    indexFound := true
    entries := [⟨some "a.jar", ["u1"]⟩, ⟨some "b.jar", []⟩, ⟨none, ["u2"]⟩]
    fetchOk := fun _ => true
    hasOverrides := false }

/-- A completion order of `envW.entries` different from submission order. -/
def orderW : List FileEntry := [⟨none, ["u2"]⟩, ⟨some "a.jar", ["u1"]⟩, ⟨some "b.jar", []⟩]

/- ## Helper lemmas -/

theorem javaThresholds_agree (t : Int × Int × Int) :
    specJavaThresholds t =
      (if tripleGe t (1, 20, 5) then 21
       else if tripleGe t (1, 18, 0) then 17
       else if tripleGe t (1, 17, 0) then 16
       else 8) := by
  unfold specJavaThresholds tripleGe
  cases h1 : tripleLt t (1, 20, 5) <;> cases h2 : tripleLt t (1, 18, 0) <;>
    cases h3 : tripleLt t (1, 17, 0) <;> simp

theorem processArgToken_id (fs : ArgFS) (tok : String) : processArgToken fs tok = fs := by
  unfold processArgToken
  split
  · split
    · rfl
    · split
      · rfl
      · rfl
  · rfl

theorem foldl_processArgToken_id (fs : ArgFS) (l : List String) :
    l.foldl processArgToken fs = fs := by
  induction l generalizing fs with
  | nil => rfl
  | cons a l ih => rw [List.foldl_cons, processArgToken_id, ih]

/-- Because `_dedupe_cp_string` raises on every input, `_dedupe_asm_in_cmd`
leaves the argument files and the command unchanged, always. -/
theorem dedupeAsmInCmd_id (fs : ArgFS) (cmd : List String) :
    dedupeAsmInCmd fs cmd = (fs, cmd) := by
  unfold dedupeAsmInCmd
  rw [foldl_processArgToken_id]
  cases h : findCpFlagIdx cmd with
  | none => rfl
  | some i => simp only [dedupeCpString]; split <;> rfl

theorem foldl_pickBest_mem (c : VDirEntry) (cs : List VDirEntry) :
    cs.foldl (fun best d => if best.mtime < d.mtime then d else best) c ∈ c :: cs := by
  induction cs generalizing c with
  | nil => exact List.mem_singleton.mpr rfl
  | cons d ds ih =>
    rw [List.foldl_cons]
    rcases List.mem_cons.mp (ih (if c.mtime < d.mtime then d else c)) with h | h
    · by_cases hc : c.mtime < d.mtime
      · rw [if_pos hc] at h
        simp [hc, h]
      · rw [if_neg hc] at h
        simp [hc, h]
    · simp [h]

theorem foldl_pickBest_max (c : VDirEntry) (cs : List VDirEntry) :
    ∀ e ∈ c :: cs,
      e.mtime ≤ (cs.foldl (fun best d => if best.mtime < d.mtime then d else best) c).mtime := by
  induction cs generalizing c with
  | nil =>
    intro e he
    rw [List.mem_singleton.mp he]
    exact Nat.le_refl _
  | cons d ds ih =>
    intro e he
    rw [List.foldl_cons]
    rcases List.mem_cons.mp he with h | h
    · subst h
      refine le_trans ?_ (ih _ _ (List.mem_cons_self _ _))
      by_cases hc : e.mtime < d.mtime <;> simp [hc] <;> omega
    · rcases List.mem_cons.mp h with h2 | h2
      · subst h2
        refine le_trans ?_ (ih _ _ (List.mem_cons_self _ _))
        by_cases hc : c.mtime < e.mtime <;> simp [hc] <;> omega
      · exact ih _ _ (List.mem_cons_of_mem _ h2)

/-- The stable descending sort-and-take-first of the discovery fallback
returns a list member of maximal modification time. -/
theorem pickMostRecent_spec (l : List VDirEntry) (e : VDirEntry)
    (h : pickMostRecent l = some e) : e ∈ l ∧ ∀ e' ∈ l, e'.mtime ≤ e.mtime := by
  cases l with
  | nil => simp [pickMostRecent] at h
  | cons c cs =>
    simp only [pickMostRecent, Option.some.injEq] at h
    subst h
    exact ⟨foldl_pickBest_mem c cs, foldl_pickBest_max c cs⟩

theorem foldl_resolve_no_dots (l acc : List String) (h : ∀ c ∈ l, c ≠ "..") :
    l.foldl (fun a c => if c = ".." then a.dropLast else a ++ [c]) acc = acc ++ l := by
  induction l generalizing acc with
  | nil => simp
  | cons a l ih =>
    rw [List.foldl_cons, if_neg (h a (List.mem_cons_self a l))]
    rw [ih _ (fun c hc => h c (List.mem_cons_of_mem a hc))]
    simp

theorem resolveDots_no_dots (l : List String) (h : ∀ c ∈ l, c ≠ "..") :
    resolveDots l = l := by
  unfold resolveDots
  rw [foldl_resolve_no_dots l [] h]
  rfl

theorem underRoot_append (base rest : List String) :
    underRoot base (base ++ rest) = true := by
  induction base with
  | nil => rfl
  | cons b bs ih => simp [underRoot, ih]

theorem entryTarget_isSome_of_ok (instDir : List String) (f : String → Bool)
    (e : FileEntry) (h : entryDownloadOk f e = true) :
    entryTarget instDir e = some (resolveDots (pathJoin instDir (e.path.getD ""))) := by
  unfold entryDownloadOk at h
  unfold entryTarget
  cases hsk : entrySkipped e with
  | true => rw [hsk] at h; simp at h
  | false => simp

theorem length_filterMap_ok (instDir : List String) (f : String → Bool)
    (l : List FileEntry) :
    (l.filterMap
        (fun e => if entryDownloadOk f e then entryTarget instDir e else none)).length =
      (l.filter (fun e => entryDownloadOk f e)).length := by
  induction l with
  | nil => rfl
  | cons a l ih =>
    by_cases h : entryDownloadOk f a = true
    · simp [List.filterMap_cons, List.filter_cons, h, entryTarget_isSome_of_ok instDir f a h, ih]
    · simp [List.filterMap_cons, List.filter_cons, h, ih]

theorem length_filter_sub (l : List FileEntry) (p : FileEntry → Bool) :
    (l.filter p).length = l.length - (l.filter (fun e => !(p e))).length := by
  have htwo : (l.filter p).length + (l.filter (fun e => !(p e))).length = l.length := by
    induction l with
    | nil => rfl
    | cons a l ih => by_cases h : p a = true <;> simp [List.filter_cons, h] <;> omega
  omega

theorem char_eq_of_toNat_eq {c d : Char} (h : c.toNat = d.toNat) : c = d := by
  apply Char.eq_of_val_eq
  apply UInt32.eq_of_toBitVec_eq
  exact BitVec.eq_of_toNat_eq h

theorem char_toNat_ofNat_lt {m : Nat} (h : m < 55296) : (Char.ofNat m).toNat = m := by
  have hv : m.isValidChar := Or.inl h
  rw [Char.ofNat, dif_pos hv]
  rfl

theorem char_eq_iff_toNat (c d : Char) : c = d ↔ c.toNat = d.toNat :=
  ⟨fun h => by rw [h], char_eq_of_toNat_eq⟩

theorem charCode_hyphen : ('-' : Char).toNat = 45 := rfl

theorem charCode_underscore : ('_' : Char).toNat = 95 := rfl

theorem charCode_dot : ('.' : Char).toNat = 46 := rfl

theorem charCode_space : (' ' : Char).toNat = 32 := rfl

theorem slugOut_ranges {c : Char} (h : slugOutChar c = true) :
    (97 ≤ c.toNat ∧ c.toNat ≤ 122) ∨ (48 ≤ c.toNat ∧ c.toNat ≤ 57) ∨
      c.toNat = 45 ∨ c.toNat = 46 := by
  simp only [slugOutChar, specSlugChar, isAsciiLower, isAsciiDigit, Bool.or_eq_true,
    Bool.and_eq_true, decide_eq_true_eq, char_eq_iff_toNat, charCode_hyphen,
    charCode_underscore, charCode_dot, charCode_space] at h
  rcases h with ((h | h) | h) | h
  · exact Or.inl h
  · exact Or.inr (Or.inl h)
  · exact Or.inr (Or.inr (Or.inl h))
  · exact Or.inr (Or.inr (Or.inr h))

theorem slugOut_keep {c : Char} (h : slugOutChar c = true) : slugKeepChar c = true := by
  have hr := slugOut_ranges h
  simp only [slugKeepChar, isAsciiUpper, isAsciiLower, isAsciiDigit, Bool.or_eq_true,
    Bool.and_eq_true, decide_eq_true_eq, char_eq_iff_toNat, charCode_hyphen,
    charCode_underscore, charCode_dot, charCode_space]
  omega

theorem slugOut_not_space {c : Char} (h : slugOutChar c = true) : isPySpace c = false := by
  have hr := slugOut_ranges h
  simp only [isPySpace, Bool.or_eq_false_iff, decide_eq_false_iff_not]
  omega

theorem slugOut_not_ws {c : Char} (h : slugOutChar c = true) : slugWsChar c = false := by
  have hr := slugOut_ranges h
  simp only [slugWsChar, isPySpace, Bool.or_eq_false_iff, decide_eq_false_iff_not,
    char_eq_iff_toNat, charCode_hyphen, charCode_underscore, charCode_dot, charCode_space]
  omega

theorem slugOut_lower_fix {c : Char} (h : slugOutChar c = true) : pyLowerChar c = c := by
  have hr := slugOut_ranges h
  have hu : isAsciiUpper c = false := by
    simp only [isAsciiUpper, Bool.and_eq_false_iff, decide_eq_false_iff_not]
    omega
  simp [pyLowerChar, hu]

theorem slugKeep_lower_out {c : Char} (h : slugKeepChar c = true) :
    (slugOutChar (pyLowerChar c) || slugWsChar (pyLowerChar c)) = true := by
  simp only [slugKeepChar, isAsciiUpper, isAsciiLower, isAsciiDigit, Bool.or_eq_true,
    Bool.and_eq_true, decide_eq_true_eq, char_eq_iff_toNat, charCode_hyphen,
    charCode_underscore, charCode_dot, charCode_space] at h
  rcases h with (((((h | h) | h) | h) | h) | h) | h
  · have hup : isAsciiUpper c = true := by
      simp only [isAsciiUpper, Bool.and_eq_true, decide_eq_true_eq]
      omega
    have : (pyLowerChar c).toNat = c.toNat + 32 := by
      simp only [pyLowerChar, hup, if_true]
      exact char_toNat_ofNat_lt (by omega)
    simp only [slugOutChar, specSlugChar, isAsciiLower, isAsciiDigit, Bool.or_eq_true,
      Bool.and_eq_true, decide_eq_true_eq, this]
    omega
  all_goals {
    have hup : isAsciiUpper c = false := by
      simp only [isAsciiUpper, Bool.and_eq_false_iff, decide_eq_false_iff_not]
      omega
    simp only [pyLowerChar, hup, Bool.false_eq_true, if_false, slugOutChar, specSlugChar,
      slugWsChar, isPySpace, isAsciiLower, isAsciiDigit, Bool.or_eq_true, Bool.and_eq_true,
      decide_eq_true_eq, char_eq_iff_toNat, charCode_hyphen, charCode_underscore,
      charCode_dot, charCode_space]
    omega
  }

theorem mem_collapseRunsAux {c : Char} :
    ∀ (b : Bool) (l : List Char), c ∈ collapseRunsAux b l →
      c = '-' ∨ (c ∈ l ∧ slugWsChar c = false) := by
  intro b l
  induction l generalizing b with
  | nil => intro h; simp [collapseRunsAux] at h
  | cons a l ih =>
    intro h
    unfold collapseRunsAux at h
    by_cases hws : slugWsChar a = true
    · rw [if_pos hws] at h
      cases b with
      | true =>
        rcases ih true h with h1 | ⟨h1, h2⟩
        · exact Or.inl h1
        · exact Or.inr ⟨List.mem_cons_of_mem a h1, h2⟩
      | false =>
        rcases List.mem_cons.mp h with h1 | h1
        · exact Or.inl h1
        · rcases ih true h1 with h2 | ⟨h2, h3⟩
          · exact Or.inl h2
          · exact Or.inr ⟨List.mem_cons_of_mem a h2, h3⟩
    · rw [if_neg hws] at h
      rcases List.mem_cons.mp h with h1 | h1
      · subst h1
        exact Or.inr ⟨List.mem_cons_self _ _, Bool.not_eq_true _ ▸ hws⟩
      · rcases ih false h1 with h2 | ⟨h2, h3⟩
        · exact Or.inl h2
        · exact Or.inr ⟨List.mem_cons_of_mem a h2, h3⟩

theorem mem_pyStrip {c : Char} {l : List Char} (h : c ∈ pyStrip l) : c ∈ l := by
  unfold pyStrip at h
  rw [List.mem_reverse] at h
  have h1 := (List.dropWhile_sublist _).mem h
  rw [List.mem_reverse] at h1
  exact (List.dropWhile_sublist _).mem h1

/-- Every character of `slugifyCore` output is a lowercase letter, a digit,
a hyphen, or a dot. -/
theorem slugifyCore_chars (name : List Char) :
    ∀ c ∈ slugifyCore name, slugOutChar c = true := by
  intro c hc
  unfold slugifyCore at hc
  rcases mem_collapseRunsAux false _ hc with h | ⟨h, hws⟩
  · subst h; decide
  · rcases List.mem_map.mp h with ⟨d, hd, hdc⟩
    have hkeep : slugKeepChar d = true :=
      List.of_mem_filter (mem_pyStrip hd)
    have := slugKeep_lower_out hkeep
    rw [hdc] at this
    rcases Bool.or_eq_true _ _ |>.mp this with h1 | h1
    · exact h1
    · rw [h1] at hws; cases hws

theorem instance_chars : ∀ c ∈ "instance-".data, slugOutChar c = true := by decide

theorem lowerHex_out {c : Char} (h : isLowerHex c = true) : slugOutChar c = true := by
  simp only [isLowerHex, isAsciiDigit, Bool.or_eq_true, Bool.and_eq_true,
    decide_eq_true_eq] at h
  simp only [slugOutChar, specSlugChar, isAsciiLower, isAsciiDigit, Bool.or_eq_true,
    Bool.and_eq_true, decide_eq_true_eq]
  omega

theorem slugify_chars (name token : List Char)
    (htok : ∀ c ∈ token, isLowerHex c = true) :
    ∀ c ∈ slugify name token, slugOutChar c = true := by
  intro c hc
  unfold slugify at hc
  by_cases he : slugifyCore name = []
  · rw [if_pos he] at hc
    rcases List.mem_append.mp hc with h | h
    · exact instance_chars c h
    · exact lowerHex_out (htok c h)
  · rw [if_neg he] at hc
    exact slugifyCore_chars name c hc

theorem slugify_ne_nil (name token : List Char) : slugify name token ≠ [] := by
  unfold slugify
  by_cases he : slugifyCore name = []
  · rw [if_pos he]
    exact List.append_ne_nil_of_left_ne_nil (by decide) token
  · rw [if_neg he]
    exact he

theorem dropWhile_eq_self_of_none {p : Char → Bool} {l : List Char}
    (h : ∀ c ∈ l, p c = false) : l.dropWhile p = l := by
  cases l with
  | nil => rfl
  | cons a l =>
    rw [List.dropWhile_cons, h a (List.mem_cons_self a l)]
    simp

theorem pyStrip_eq_self {l : List Char} (h : ∀ c ∈ l, isPySpace c = false) :
    pyStrip l = l := by
  unfold pyStrip
  rw [dropWhile_eq_self_of_none h]
  rw [dropWhile_eq_self_of_none (fun c hc => h c (List.mem_reverse.mp hc))]
  exact List.reverse_reverse l

theorem collapseRunsAux_eq_self {l : List Char}
    (h : ∀ c ∈ l, slugWsChar c = false) : collapseRunsAux false l = l := by
  induction l with
  | nil => rfl
  | cons a l ih =>
    unfold collapseRunsAux
    rw [if_neg (by rw [h a (List.mem_cons_self a l)]; exact Bool.false_ne_true)]
    rw [ih (fun c hc => h c (List.mem_cons_of_mem a hc))]

/-- `slugifyCore` fixes every string over its own output alphabet. -/
theorem slugifyCore_fix {l : List Char} (h : ∀ c ∈ l, slugOutChar c = true) :
    slugifyCore l = l := by
  unfold slugifyCore
  rw [List.filter_eq_self.mpr (fun c hc => slugOut_keep (h c hc))]
  rw [pyStrip_eq_self (fun c hc => slugOut_not_space (h c hc))]
  rw [List.map_congr_left (fun c hc => slugOut_lower_fix (h c hc)), List.map_id']
  exact collapseRunsAux_eq_self (fun c hc => slugOut_not_ws (h c hc))

theorem installPct_ge_15 (total d : Nat) : 15 ≤ installPct total d :=
  Nat.le_add_right 15 _

theorem installPct_le_95 {total d : Nat} (ht : 1 ≤ total) (hd : d ≤ total) :
    installPct total d ≤ 95 := by
  unfold installPct
  have h1 : 80 * d / total ≤ 80 * total / total :=
    Nat.div_le_div_right (Nat.mul_le_mul_left 80 hd)
  rw [Nat.mul_div_cancel _ ht] at h1
  omega

theorem installPct_mono (total : Nat) {d e : Nat} (h : d ≤ e) :
    installPct total d ≤ installPct total e := by
  unfold installPct
  have h2 : 80 * d / total ≤ 80 * e / total :=
    Nat.div_le_div_right (Nat.mul_le_mul_left 80 h)
  omega

theorem chain_dlTrace (n total : Nat) :
    List.Chain' (· ≤ ·) ((List.range n).map (fun i => installPct total (i + 1))) := by
  rw [List.chain'_map]
  cases n with
  | zero => simp
  | succ m =>
    exact (List.chain'_range_succ _ m).mpr
      (fun k _ => installPct_mono total (by omega))

theorem dlTrace_bounds {n total : Nat} (ht : 1 ≤ total) (hn : n ≤ total) :
    ∀ x ∈ (List.range n).map (fun i => installPct total (i + 1)),
      15 ≤ x ∧ x ≤ 95 := by
  intro x hx
  rcases List.mem_map.mp hx with ⟨i, hi, hxi⟩
  have hi' : i < n := List.mem_range.mp hi
  subst hxi
  exact ⟨installPct_ge_15 total (i + 1), installPct_le_95 ht (by omega)⟩

theorem chain012 : List.Chain' (· ≤ ·) ([0, 0, 2] : List Nat) := by
  rw [List.chain'_cons, List.chain'_pair]
  exact ⟨Nat.le_refl 0, by omega⟩

theorem chain0128 : List.Chain' (· ≤ ·) ([0, 0, 2, 8] : List Nat) := by
  rw [List.chain'_cons, List.chain'_cons, List.chain'_pair]
  exact ⟨Nat.le_refl 0, by omega, by omega⟩

theorem chain01281515 : List.Chain' (· ≤ ·) ([0, 0, 2, 8, 15] : List Nat) := by
  rw [List.chain'_cons, List.chain'_cons, List.chain'_cons, List.chain'_pair]
  exact ⟨Nat.le_refl 0, by omega, by omega, by omega⟩

/- ## Claim theorems -/

/-- C1: the claim says the sanitizer keeps exactly the 9.5 entry of two
`org.ow2.asm` classpath entries with versions 9.1 and 9.5.  On the code the
pattern `re.compile` raises before any entry is inspected, so the command
comes back unchanged and both entries survive: this theorem evaluates
`_dedupe_asm_in_cmd` at that launch command and shows the untouched
classpath still lists the 9.1 jar next to the 9.5 jar. -/
theorem dedupe_91_95_keeps_both :
    dedupeAsmInCmd ⟨[]⟩ asmCmd91and95 = (⟨[]⟩, asmCmd91and95) ∧
    asmCmd91and95.getD 2 "" = asmCp91and95 ∧
    "/libs/org/ow2/asm/asm/9.1/asm-9.1.jar" ∈ splitPathSep asmCp91and95 ∧
    "/libs/org/ow2/asm/asm/9.5/asm-9.5.jar" ∈ splitPathSep asmCp91and95 :=
  ⟨dedupeAsmInCmd_id _ _, by decide, by decide, by decide⟩

/-- C2 counterexample: a file entry whose relative path climbs with `..`
is downloaded (not skipped) and its write lands outside the instance
root — `_download_entry` performs no traversal check on
`inst_dir / rel_path`. -/
theorem download_entry_escapes_root :
    entryDownloadOk (fun _ => true)
      ⟨some "../../escape.jar", ["https://cdn.example/escape.jar"]⟩ = true ∧
    entryTarget ["home", "user", ".cottage_launcher", "instances", "demo"]
        ⟨some "../../escape.jar", ["https://cdn.example/escape.jar"]⟩ =
      some ["home", "user", ".cottage_launcher", "escape.jar"] ∧
    underRoot ["home", "user", ".cottage_launcher", "instances", "demo"]
      ["home", "user", ".cottage_launcher", "escape.jar"] = false :=
  ⟨by decide, by decide, by decide⟩

/-- C2 (amended): the destination written by `_download_entry` is the plain
join of the instance root with the entry's relative path; it stays within
the instance root whenever that path is relative and free of `..`
components, and an entry lacking a truthy path or a non-empty URL list is
skipped (no write, no failure). -/
theorem download_entry_guarded (instDir : List String) (e : FileEntry)
    (fetchOk : String → Bool) (hroot : ∀ c ∈ instDir, c ≠ "..") :
    (∀ p, e.path = some p → strStartsWith p "/" = false →
      (∀ c ∈ splitPosix p, c ≠ "..") →
      ∀ t, entryTarget instDir e = some t → underRoot instDir t = true) ∧
    (entrySkipped e = true →
      entryTarget instDir e = none ∧ entryDownloadOk fetchOk e = false) := by
  constructor
  · intro p hp habs hcomp t ht
    unfold entryTarget at ht
    cases hsk : entrySkipped e with
    | true => rw [hsk] at ht; simp at ht
    | false =>
      rw [hsk] at ht
      simp only [Bool.false_eq_true, if_false, Option.some.injEq] at ht
      rw [hp] at ht
      simp only [Option.getD_some] at ht
      unfold pathJoin at ht
      rw [habs] at ht
      simp only [Bool.false_eq_true, if_false] at ht
      rw [resolveDots_no_dots] at ht
      · rw [← ht]; exact underRoot_append instDir (splitPosix p)
      · intro c hc
        rcases List.mem_append.mp hc with h1 | h1
        · exact hroot c h1
        · exact hcomp c h1
  · intro hsk
    exact ⟨by simp [entryTarget, hsk], by simp [entryDownloadOk, hsk]⟩

/-- C2 witness: a benign entry lands below the root; a pathless entry is
skipped. -/
theorem download_entry_guarded_witness :
    underRoot ["r", "i"] ["r", "i", "mods", "a.jar"] = true ∧
    (entryTarget ["r", "i"] ⟨none, ["u"]⟩ = none ∧
     entryDownloadOk (fun _ => true) ⟨none, ["u"]⟩ = false) :=
  ⟨(download_entry_guarded ["r", "i"] ⟨some "mods/a.jar", ["u"]⟩ (fun _ => true)
      (by decide)).1 "mods/a.jar" rfl (by decide) (by decide)
      ["r", "i", "mods", "a.jar"] (by decide),
   (download_entry_guarded ["r", "i"] ⟨none, ["u"]⟩ (fun _ => true) (by decide)).2 (by decide)⟩

/-- C3 counterexample: `_slugify("a.b")` returns `"a.b"` — the dot
survives both substitutions, so the output is not limited to lowercase
alphanumerics and hyphens. -/
theorem slugify_dot_counterexample :
    slugify "a.b".data "deadbeef".data = "a.b".data ∧
    '.' ∈ slugify "a.b".data "deadbeef".data ∧
    specSlugChar '.' = false :=
  ⟨by decide, by decide, by decide⟩

/-- C3 (amended): for every input and every lowercase-hex random token,
`_slugify` yields only lowercase alphanumerics, hyphens and dots, never
the empty string, and is idempotent: slugifying its own output (with any
fresh token) returns it unchanged. -/
theorem slugify_amended (name token : List Char)
    (htok : ∀ c ∈ token, isLowerHex c = true) :
    (∀ c ∈ slugify name token, slugOutChar c = true) ∧
    slugify name token ≠ [] ∧
    ∀ token2, slugify (slugify name token) token2 = slugify name token := by
  have hcore := slugifyCore_fix (slugify_chars name token htok)
  have heq : ∀ (a b : List Char),
      slugify a b = if slugifyCore a = [] then "instance-".data ++ b else slugifyCore a :=
    fun a b => rfl
  refine ⟨slugify_chars name token htok, slugify_ne_nil name token, fun token2 => ?_⟩
  rw [heq (slugify name token) token2, hcore, if_neg (slugify_ne_nil name token)]

/-- C3 witness: a concrete name with uppercase, spaces, an underscore and
punctuation slugifies to a nonempty fixed point. -/
theorem slugify_amended_witness :
    slugify "My Cool_Pack!!".data "deadbeef".data ≠ [] ∧
    slugify (slugify "My Cool_Pack!!".data "deadbeef".data) "0123abcd".data =
      slugify "My Cool_Pack!!".data "deadbeef".data :=
  ⟨(slugify_amended "My Cool_Pack!!".data "deadbeef".data (by decide)).2.1,
   (slugify_amended "My Cool_Pack!!".data "deadbeef".data (by decide)).2.2 "0123abcd".data⟩

/-- C4: every call of the classpath parser raises (its pattern does not
compile), and for every argument-file state and command list
`_dedupe_asm_in_cmd` returns the original command unmodified with the
argument files untouched — sanitization failure is non-fatal and never
changes the command. -/
theorem dedupe_nonfatal (fs : ArgFS) (cmd : List String) :
    (∀ cp, dedupeCpString cp = .exc) ∧ dedupeAsmInCmd fs cmd = (fs, cmd) :=
  ⟨fun _ => rfl, dedupeAsmInCmd_id fs cmd⟩

/-- C5: for every base game version string, the Java feature version the
code computes agrees with the spec's threshold table on the parsed
(major, minor, patch) triple, and 1.20.5, 1.20.4 and 1.16.5 map to 21, 17
and 8. -/
theorem requiredJava_matches_spec :
    (∀ s : String, requiredJavaFeatureVersion s = specJavaThresholds (parseMcVersion s)) ∧
    requiredJavaFeatureVersion "1.20.5" = 21 ∧
    requiredJavaFeatureVersion "1.20.4" = 17 ∧
    requiredJavaFeatureVersion "1.16.5" = 8 := by
  refine ⟨fun s => ?_, by decide, by decide, by decide⟩
  rw [requiredJavaFeatureVersion, javaThresholds_agree]

/-- C6: with the metadata, archive and index steps succeeding, the install
job writes exactly N − K files, where K counts the entries failing
deterministically (missing path, empty URL list, or a fetch error on the
first URL), and finishes completed at progress 100 — for any pool width
and any completion order of the futures. -/
theorem install_partial_failure (env : InstallEnv) (width : Nat) (order : List FileEntry)
    (_hw : 1 ≤ width) (hperm : order.Perm env.entries)
    (hm : env.metadataOk = true) (ha : env.archiveOk = true) (hi : env.indexFound = true) :
    (installModpackJob env width order).status = .completed ∧
    (installModpackJob env width order).progress = 100 ∧
    (installModpackJob env width order).written.length =
      env.entries.length -
        (env.entries.filter (fun e => !(entryDownloadOk env.fetchOk e))).length := by
  unfold installModpackJob
  simp only [hm, ha, hi, Bool.not_true, Bool.false_eq_true, if_false]
  refine ⟨trivial, trivial, ?_⟩
  rw [length_filterMap_ok]
  rw [(hperm.filter _).length_eq]
  exact length_filter_sub env.entries _

/-- C6 witness: three entries of which two fail deterministically yield
one written file and a completed job. -/
theorem install_partial_failure_witness :
    (installModpackJob envW 1 orderW).status = .completed ∧
    (installModpackJob envW 1 orderW).progress = 100 ∧
    (installModpackJob envW 1 orderW).written.length =
      envW.entries.length -
        (envW.entries.filter (fun e => !(entryDownloadOk envW.fetchOk e))).length :=
  install_partial_failure envW 1 orderW (by decide) (by decide) (by decide) (by decide)
    (by decide)

/-- C7: within one install job the sequence of progress values written to
the job record is monotonically non-decreasing, stays within [0, 100]
(progress is a natural number, so 0 is a lower bound by construction), and
is exactly 100 — also as the last written value — whenever the job
completes successfully; this holds for every pool width ≥ 1 and every
completion order of the concurrent downloads, because the `done` counter
is advanced under a lock, one step per completed future. -/
theorem install_progress_invariants (env : InstallEnv) (width : Nat)
    (order : List FileEntry) (_hw : 1 ≤ width) (hperm : order.Perm env.entries) :
    List.Chain' (· ≤ ·) (installModpackJob env width order).trace ∧
    (∀ x ∈ (installModpackJob env width order).trace, x ≤ 100) ∧
    ((installModpackJob env width order).status = .completed →
      (installModpackJob env width order).progress = 100 ∧
      (installModpackJob env width order).trace.getLast? = some 100) := by
  have hlen : order.length = env.entries.length := hperm.length_eq
  unfold installModpackJob
  cases hm : env.metadataOk with
  | false =>
    simp only [hm, Bool.not_false, if_true]
    exact ⟨chain012, by decide, fun h => absurd h (by decide)⟩
  | true =>
    cases ha : env.archiveOk with
    | false =>
      simp only [hm, ha, Bool.not_true, Bool.not_false, Bool.false_eq_true, if_false, if_true]
      exact ⟨chain0128, by decide, fun h => absurd h (by decide)⟩
    | true =>
      cases hi : env.indexFound with
      | false =>
        simp only [hm, ha, hi, Bool.not_true, Bool.not_false, Bool.false_eq_true,
          if_false, if_true]
        exact ⟨chain01281515, by decide, fun h => absurd h (by decide)⟩
      | true =>
        simp only [hm, ha, hi, Bool.not_true, Bool.false_eq_true, if_false]
        set total := max 1 env.entries.length with htot
        have ht : 1 ≤ total := Nat.le_max_left 1 _
        have hn : order.length ≤ total := by rw [hlen]; exact Nat.le_max_right 1 _
        set dl := (List.range order.length).map (fun i => installPct total (i + 1))
          with hdl
        set ov : List Nat := (if env.hasOverrides then [96] else []) with hov
        have hdlb := dlTrace_bounds ht hn
        rw [← hdl] at hdlb
        have hovb : ∀ x ∈ ov ++ [100], 96 ≤ x ∧ x ≤ 100 := by
          intro x hx
          rw [hov] at hx
          cases h2 : env.hasOverrides
          · rw [h2] at hx
            simp at hx
            omega
          · rw [h2] at hx
            simp at hx
            rcases hx with h | h
            · omega
            · omega
        have hov_chain : List.Chain' (· ≤ ·) (ov ++ [100]) := by
          rw [hov]
          cases h2 : env.hasOverrides
          · exact List.chain'_singleton 100
          · exact List.chain'_pair.mpr (by omega)
        have htail_chain : List.Chain' (· ≤ ·) (dl ++ (ov ++ [100])) := by
          refine (chain_dlTrace order.length total).append hov_chain ?_
          intro x hx y hy
          have h1 := (hdlb x (List.mem_of_mem_getLast? hx)).2
          have h2 := (hovb y (List.mem_of_mem_head? hy)).1
          omega
        have htail_bounds : ∀ x ∈ dl ++ (ov ++ [100]), 15 ≤ x ∧ x ≤ 100 := by
          intro x hx
          rcases List.mem_append.mp hx with h | h
          · have := hdlb x h
            omega
          · have := hovb x h
            omega
        have hshape :
            (((([0, 0, 2] ++ [8] ++ [15]) ++ [15]) ++ dl) ++ ov ++ [100] : List Nat) =
              0 :: 0 :: 2 :: 8 :: 15 :: 15 :: (dl ++ (ov ++ [100])) := by
          simp
        refine ⟨?_, ?_, fun _ => ⟨trivial, ?_⟩⟩
        · show List.Chain' (· ≤ ·)
            (((([0, 0, 2] ++ [8] ++ [15]) ++ [15]) ++ dl) ++ ov ++ [100])
          rw [hshape]
          rw [List.chain'_cons, List.chain'_cons, List.chain'_cons, List.chain'_cons,
            List.chain'_cons]
          refine ⟨by omega, by omega, by omega, by omega, by omega, ?_⟩
          rw [List.chain'_cons']
          refine ⟨?_, htail_chain⟩
          intro y hy
          have := (htail_bounds y (List.mem_of_mem_head? hy)).1
          omega
        · show ∀ x ∈ (((([0, 0, 2] ++ [8] ++ [15]) ++ [15]) ++ dl) ++ ov ++ [100]), x ≤ 100
          rw [hshape]
          intro x hx
          simp only [List.mem_cons] at hx
          rcases hx with h | h | h | h | h | h | h
          · omega
          · omega
          · omega
          · omega
          · omega
          · omega
          · exact (htail_bounds x h).2
        · show ((((([0, 0, 2] ++ [8] ++ [15]) ++ [15]) ++ dl) ++ ov) ++ [100]).getLast? =
            some 100
          exact List.getLast?_concat _

/-- C7 witness: the concrete three-entry install job has a monotone trace
ending at exactly 100. -/
theorem install_progress_invariants_witness :
    List.Chain' (· ≤ ·) (installModpackJob envW 1 orderW).trace ∧
    ((installModpackJob envW 1 orderW).progress = 100 ∧
      (installModpackJob envW 1 orderW).trace.getLast? = some 100) :=
  ⟨(install_progress_invariants envW 1 orderW (by decide) (by decide)).1,
   (install_progress_invariants envW 1 orderW (by decide) (by decide)).2.2 (by decide)⟩

/-- C8: a successful `_ensure_adoptium_jre` leaves the executable in the
cache, after which a second call with the same feature version returns
immediately with no state change and no network traffic; the executable's
presence is the sole existence check (behaviour is independent of any
other cache content), and a cache entry lacking the executable is
repopulated through exactly one index query and one archive download. -/
theorem ensure_cache_idempotent (net : AdoptiumNet) (s s' : JreCache)
    (h : ensureAdoptiumJre net s = (s', .ok ())) :
    ensureAdoptiumJre net s' = (s', .ok ()) ∧
    s'.javaBinPresent = true ∧
    (s.javaBinPresent = true → s' = s) ∧
    (s.javaBinPresent = false →
      s'.downloads = s.downloads + 1 ∧ s'.indexQueries = s.indexQueries + 1) ∧
    (∀ b, (ensureAdoptiumJre net { s with staleFiles := b }).2 =
      (ensureAdoptiumJre net s).2) := by
  cases hp : s.javaBinPresent <;>
    cases hA : net.assetsNonempty <;>
    cases hL : net.linkFound <;>
    cases hE : net.extractedRootFound <;>
    simp_all [ensureAdoptiumJre] <;>
    (try subst h) <;> simp_all

/-- C8 witness: a populated cache entry obtained by one successful ensure
call is returned unchanged by the next call. -/
theorem ensure_cache_idempotent_witness :
    ensureAdoptiumJre ⟨true, true, true⟩
        { javaBinPresent := true, staleFiles := true, indexQueries := 1, downloads := 1 } =
      ({ javaBinPresent := true, staleFiles := true, indexQueries := 1, downloads := 1 },
        .ok ()) :=
  (ensure_cache_idempotent ⟨true, true, true⟩
    { javaBinPresent := false, staleFiles := true, indexQueries := 0, downloads := 0 }
    { javaBinPresent := true, staleFiles := true, indexQueries := 1, downloads := 1 }
    (by rfl)).1

/-- C9: when the computed identifier is still not installed after the
generic-installer fallback and the version store exists, the discovery
scan returns a candidate (directory, name ending in `-{base}` and
starting with a recognized loader name) of maximal modification time and
adopts its name; and whenever the surviving identifier is still not
installed, the launch job fails with the resolution error naming it. -/
theorem resolver_last_resorts (st : VersionsStore) (mcVer vid : String) :
    (versionExists st vid = false → st.present = true →
      ∀ e, pickMostRecent (discoveryCandidates st mcVer) = some e →
        e ∈ discoveryCandidates st mcVer ∧
        (∀ e' ∈ discoveryCandidates st mcVer, e'.mtime ≤ e.mtime) ∧
        discoverFallback st mcVer vid = e.name) ∧
    (versionExists st (discoverFallback st mcVer vid) = false →
      resolveFinal st mcVer vid =
        .error (resolutionErrorMsg (discoverFallback st mcVer vid))) := by
  constructor
  · intro hnx hpres e hpick
    obtain ⟨hmem, hmax⟩ := pickMostRecent_spec _ _ hpick
    refine ⟨hmem, hmax, ?_⟩
    simp [discoverFallback, hnx, hpres, hpick]
  · intro hfin
    simp [resolveFinal, hfin]

/-- C9 witness: with two loader directories installed without their json
files, the scan picks the most recently modified one and the final check
fails with the resolution error naming it. -/
theorem resolver_last_resorts_witness :
    (⟨"quilt-loader-0.20.2-1.20.1", true, 7, false⟩ : VDirEntry) ∈
      discoveryCandidates storeW "1.20.1" ∧
    discoverFallback storeW "1.20.1" "fabric-loader-0.15.0-1.20.1" =
      "quilt-loader-0.20.2-1.20.1" ∧
    resolveFinal storeW "1.20.1" "fabric-loader-0.15.0-1.20.1" =
      .error (resolutionErrorMsg (discoverFallback storeW "1.20.1" "fabric-loader-0.15.0-1.20.1")) := by
  have h := (resolver_last_resorts storeW "1.20.1" "fabric-loader-0.15.0-1.20.1").1
    (by decide) (by decide) ⟨"quilt-loader-0.20.2-1.20.1", true, 7, false⟩ (by decide)
  exact ⟨h.1, h.2.2,
    (resolver_last_resorts storeW "1.20.1" "fabric-loader-0.15.0-1.20.1").2 (by decide)⟩

/-- C10: the discovery fallback ignores the pinned loader ecosystem — with
a fabric pin whose computed identifier is absent and a version store
holding only a most-recently-modified quilt directory for the same base
version, the resolver selects the quilt identifier. -/
theorem discovery_crosses_loader :
    computeVersionId (some "1.20.1") (some "0.15.0") none none none =
      some "fabric-loader-0.15.0-1.20.1" ∧
    versionExists quiltOnlyStore "fabric-loader-0.15.0-1.20.1" = false ∧
    discoverFallback quiltOnlyStore "1.20.1" "fabric-loader-0.15.0-1.20.1" =
      "quilt-loader-0.20.2-1.20.1" ∧
    resolveFinal quiltOnlyStore "1.20.1" "fabric-loader-0.15.0-1.20.1" =
      .ok "quilt-loader-0.20.2-1.20.1" ∧
    strStartsWith "quilt-loader-0.20.2-1.20.1" "fabric-loader" = false ∧
    strStartsWith "quilt-loader-0.20.2-1.20.1" "quilt-loader" = true :=
  ⟨by decide, by decide, by decide, by rfl, by decide, by decide⟩
